import Mathlib

/-!
# Verification of the dsid-contract token ledger

Shallow embedding of the CIS-2 "dsid" token-ledger contract
(`src/state.rs` and `src/contract/*.rs`) and proofs of the
specification claims about it.

Modelling conventions:
* `TokenIdU8`, `TokenAmountU16`, `Timestamp` and `AccountAddress` are
  modelled as `Nat` (the code performs no arithmetic on them beyond
  comparisons, so no wrap-around can occur).
* `StateMap` (a key-value map with unique keys) is modelled as an
  association list; `insert` replaces the first binding of the key,
  `remove` deletes every binding of the key (on the unique-key states
  the contract actually builds the two coincide).
* The logger is modelled as an accumulated event list; resource-limit
  logging failures (`LogFull`/`LogMalformed`) and parameter decoding
  are outside the embedded core, as is the host runtime.
-/

namespace Dsid

/-- A single holder's balance plus expiry for one token
(`TokenBalanceState` in `src/state.rs`). -/
structure TokenBalanceState where
  amount : Nat
  expiry : Nat
  deriving Repr, DecidableEq

namespace TokenBalanceState

/-- `TokenBalanceState::get_balance`: the stored amount if `expiry > now`,
otherwise 0. -/
def get_balance (b : TokenBalanceState) (now : Nat) : Nat :=
  if now < b.expiry then b.amount else 0

/-- `TokenBalanceState::has_balance`: the balance at `now` is positive. -/
def has_balance (b : TokenBalanceState) (now : Nat) : Bool :=
  decide (0 < b.get_balance now)

end TokenBalanceState

/-- Metadata URL with optional content hash
(`concordium_cis2::MetadataUrl`). -/
structure MetadataUrl where
  url : String
  hash : Option (List Nat)
  deriving Repr, DecidableEq

/-- An address is either an account or a contract address
(`concordium_std::Address`). -/
inductive Address where
  | account (addr : Nat)
  | contract (index : Nat) (subindex : Nat)
  deriving Repr, DecidableEq

/-- Contract-specific errors (`CustomError` in `src/errors.rs`). -/
inductive CustomError where
  | parseParams
  | logFull
  | logMalformed
  | accountsOnly
  | tokenExpired
  | tokenHasValidBalances
  deriving Repr, DecidableEq

/-- `ContractError = concordium_cis2::Cis2Error<CustomError>`. -/
inductive ContractError where
  | invalidTokenId
  | insufficientFunds
  | unauthorized
  | custom (e : CustomError)
  deriving Repr, DecidableEq

/-- CIS-2 events emitted by the contract (`Cis2Event`), restricted to the
variants this contract produces. -/
inductive ContractEvent where
  | mintEvent (token_id : Nat) (owner : Address) (amount : Nat)
  | burnEvent (token_id : Nat) (owner : Address) (amount : Nat)
  | tokenMetadataEvent (token_id : Nat) (metadata_url : MetadataUrl)
  deriving Repr, DecidableEq

/-- Replace the first binding of key `k` with `v`, or append it
(association-list model of `StateMap::insert`). -/
def mapInsert {β : Type} (k : Nat) (v : β) : List (Nat × β) → List (Nat × β)
  | [] => [(k, v)]
  | (k', v') :: rest =>
      if k = k' then (k, v) :: rest else (k', v') :: mapInsert k v rest

/-- Delete every binding of key `k`
(association-list model of `StateMap::remove`). -/
def mapRemove {β : Type} (k : Nat) (m : List (Nat × β)) : List (Nat × β) :=
  m.filter (fun p => !(p.1 == k))

/-- State of one token: its holder balances and metadata
(`TokenState` in `src/state.rs`). -/
structure TokenState where
  balances : List (Nat × TokenBalanceState)
  metadata : MetadataUrl
  deriving Repr, DecidableEq

namespace TokenState

/-- `TokenState::get_account_balance`: 0 when the account has no record
or the record has expired. -/
def get_account_balance (t : TokenState) (account : Nat) (now : Nat) : Nat :=
  match List.lookup account t.balances with
  | some b => b.get_balance now
  | none => 0

/-- `TokenState::get_account_balance_expiry`: the stored expiry verbatim,
`none` when the account has no record. -/
def get_account_balance_expiry (t : TokenState) (account : Nat) :
    Option Nat :=
  (List.lookup account t.balances).map (fun b => b.expiry)

end TokenState

/-- The ledger: a map from token id to `TokenState`
(`State` in `src/state.rs`). -/
structure State where
  tokens : List (Nat × TokenState)
  deriving Repr, DecidableEq

namespace State

/-- `State::empty`. -/
def empty : State := ⟨[]⟩

/-- `State::has_token`. -/
def has_token (s : State) (token_id : Nat) : Bool :=
  (List.lookup token_id s.tokens).isSome

/-- `State::add_token`: `entry(token_id).or_insert(..)` — inserts a fresh
`TokenState` with empty balances, never replacing an existing token. -/
def add_token (s : State) (token_id : Nat) (token_metadata : MetadataUrl) :
    State :=
  match List.lookup token_id s.tokens with
  | some _ => s
  | none => ⟨(token_id, ⟨[], token_metadata⟩) :: s.tokens⟩

/-- `State::remove_token`: removes the token's entry; does not fail when
the token does not exist. -/
def remove_token (s : State) (token_id : Nat) : State :=
  ⟨mapRemove token_id s.tokens⟩

/-- `State::has_balances`: some holder of the token has a positive
unexpired balance. -/
def has_balances (s : State) (token_id : Nat) (now : Nat) : Bool :=
  match List.lookup token_id s.tokens with
  | some t => t.balances.any (fun p => p.2.has_balance now)
  | none => false

/-- `State::mint`: fails with `InvalidTokenId` when the token does not
exist; otherwise inserts the new balance record, returning the record it
replaced (if any). -/
def mint (s : State) (token_id : Nat) (account : Nat) (amount : Nat)
    (expiry : Nat) :
    Except ContractError (State × Option TokenBalanceState) :=
  match List.lookup token_id s.tokens with
  | some t =>
      .ok (⟨mapInsert token_id
              { t with balances := mapInsert account ⟨amount, expiry⟩ t.balances }
              s.tokens⟩,
           List.lookup account t.balances)
  | none => .error .invalidTokenId

/-- `State::get_account_balance`: `InvalidTokenId` when the token does
not exist, otherwise the holder's time-masked balance. -/
def get_account_balance (s : State) (token_id : Nat) (account : Nat)
    (now : Nat) : Except ContractError Nat :=
  match List.lookup token_id s.tokens with
  | some t => .ok (t.get_account_balance account now)
  | none => .error .invalidTokenId

/-- `State::get_account_balance_expiry`: `InvalidTokenId` when the token
does not exist, otherwise the holder's stored expiry (unmasked). -/
def get_account_balance_expiry (s : State) (token_id : Nat)
    (account : Nat) : Except ContractError (Option Nat) :=
  match List.lookup token_id s.tokens with
  | some t => .ok (t.get_account_balance_expiry account)
  | none => .error .invalidTokenId

/-- `State::get_token_metadata`. -/
def get_token_metadata (s : State) (token_id : Nat) :
    Except ContractError MetadataUrl :=
  match List.lookup token_id s.tokens with
  | some t => .ok t.metadata
  | none => .error .invalidTokenId

end State

/-- The record currently stored for `(token_id, account)`:
the token's entry chained with its balances lookup. -/
def balanceRecord (s : State) (token_id : Nat) (account : Nat) :
    Option TokenBalanceState :=
  (List.lookup token_id s.tokens).bind
    (fun t => List.lookup account t.balances)

/-- One mint request entry (`MintParam` in `src/contract/mint.rs`). -/
structure MintParam where
  amount : Nat
  expiry : Nat
  deriving Repr, DecidableEq

/-- Parameter of the `mint` entry point (`MintParams`): the owner and a
`BTreeMap` from token id to `MintParam`, modelled as a strictly
ascending list of pairs (so duplicate token ids are unrepresentable and
iteration is in ascending key order). -/
structure MintParams where
  owner : Nat
  tokens : List (Nat × MintParam)
  tokensSorted : List.Chain' (· < ·) (tokens.map Prod.fst)

/-- The per-entry loop of the `mint` entry point
(`src/contract/mint.rs`, lines 50-80): check `expiry > now`, call
`State::mint`, log a burn for a still-active replaced record, then log
the mint. -/
def mintLoop (now : Nat) (owner : Nat) :
    State → List (Nat × MintParam) →
    Except ContractError (State × List ContractEvent)
  | s, [] => .ok (s, [])
  | s, (token_id, p) :: rest =>
      if now < p.expiry then
        match State.mint s token_id owner p.amount p.expiry with
        | .error e => .error e
        | .ok (s', existing) =>
            match mintLoop now owner s' rest with
            | .error e => .error e
            | .ok (s'', evs) =>
                .ok (s'',
                  (match existing with
                    | some b =>
                        if 0 < b.get_balance now then
                          [ContractEvent.burnEvent token_id (.account owner)
                            (b.get_balance now)]
                        else []
                    | none => []) ++
                    .mintEvent token_id (.account owner) p.amount :: evs)
      else .error (.custom .tokenExpired)

/-- The `mint` entry point: authorization gate then the batch loop. -/
def mint_call (senderIsOwner : Bool) (now : Nat) (s : State)
    (params : MintParams) :
    Except ContractError (State × List ContractEvent) :=
  if senderIsOwner then mintLoop now params.owner s params.tokens
  else .error .unauthorized

/-- One `add` request entry (`AddTokenParams` in `src/contract/add.rs`). -/
structure AddTokenParams where
  token_id : Nat
  metadata_url : MetadataUrl
  deriving Repr, DecidableEq

/-- The per-entry loop of the `add` entry point
(`src/contract/add.rs`, lines 44-61): fail with `InvalidTokenId` when
the token already exists, otherwise register it and log its metadata. -/
def addLoop : State → List AddTokenParams →
    Except ContractError (State × List ContractEvent)
  | s, [] => .ok (s, [])
  | s, t :: rest =>
      if s.has_token t.token_id then .error .invalidTokenId
      else
        match addLoop (s.add_token t.token_id t.metadata_url) rest with
        | .error e => .error e
        | .ok (s', evs) =>
            .ok (s', .tokenMetadataEvent t.token_id t.metadata_url :: evs)

/-- The `add` entry point: authorization gate then the batch loop. -/
def add_call (senderIsOwner : Bool) (s : State)
    (params : List AddTokenParams) :
    Except ContractError (State × List ContractEvent) :=
  if senderIsOwner then addLoop s params else .error .unauthorized

/-- The per-entry loop of the `remove` entry point
(`src/contract/remove.rs`, lines 40-63): the token must exist and have
no active balances; it is then deleted and an empty metadata event is
logged. -/
def removeLoop (now : Nat) : State → List Nat →
    Except ContractError (State × List ContractEvent)
  | s, [] => .ok (s, [])
  | s, token_id :: rest =>
      if s.has_token token_id then
        if s.has_balances token_id now then
          .error (.custom .tokenHasValidBalances)
        else
          match removeLoop now (s.remove_token token_id) rest with
          | .error e => .error e
          | .ok (s', evs) =>
              .ok (s', .tokenMetadataEvent token_id ⟨"", none⟩ :: evs)
      else .error .invalidTokenId

/-- The `remove` entry point: authorization gate then the batch loop. -/
def remove_call (senderIsOwner : Bool) (now : Nat) (s : State)
    (params : List Nat) :
    Except ContractError (State × List ContractEvent) :=
  if senderIsOwner then removeLoop now s params else .error .unauthorized

/-- One `balanceOf`/`expiryOf` query (`BalanceOfQuery`). -/
structure BalanceOfQuery where
  token_id : Nat
  address : Address
  deriving Repr, DecidableEq

/-- Evaluation of one `balanceOf` sub-query
(`src/contract/balance_of.rs`, lines 22-27): contract-style holders fail
with `AccountsOnly` before any token lookup. -/
def evalBalanceQuery (s : State) (now : Nat) (q : BalanceOfQuery) :
    Except ContractError Nat :=
  match q.address with
  | .account a => s.get_account_balance q.token_id a now
  | .contract _ _ => .error (.custom .accountsOnly)

/-- The `collect::<Result<Vec<_>,_>>` of the `balanceOf` entry point:
sub-queries evaluated in list order, first error aborts the whole call. -/
def balanceOfLoop (s : State) (now : Nat) :
    List BalanceOfQuery → Except ContractError (List Nat)
  | [] => .ok []
  | q :: qs =>
      match evalBalanceQuery s now q with
      | .error e => .error e
      | .ok v =>
          match balanceOfLoop s now qs with
          | .error e => .error e
          | .ok vs => .ok (v :: vs)

/-- The `balanceOf` entry point (read-only, no authorization). -/
def balance_of_call (s : State) (now : Nat)
    (queries : List BalanceOfQuery) : Except ContractError (List Nat) :=
  balanceOfLoop s now queries

/-- Evaluation of one `expiryOf` sub-query
(`src/contract/expiry_of.rs`, lines 25-28). -/
def evalExpiryQuery (s : State) (q : BalanceOfQuery) :
    Except ContractError (Option Nat) :=
  match q.address with
  | .account a => s.get_account_balance_expiry q.token_id a
  | .contract _ _ => .error (.custom .accountsOnly)

/-- The collect loop of the `expiryOf` entry point. -/
def expiryOfLoop (s : State) :
    List BalanceOfQuery → Except ContractError (List (Option Nat))
  | [] => .ok []
  | q :: qs =>
      match evalExpiryQuery s q with
      | .error e => .error e
      | .ok v =>
          match expiryOfLoop s qs with
          | .error e => .error e
          | .ok vs => .ok (v :: vs)

/-- The `expiryOf` entry point (read-only, no authorization). -/
def expiry_of_call (s : State) (queries : List BalanceOfQuery) :
    Except ContractError (List (Option Nat)) :=
  expiryOfLoop s queries

/-- The `transfer` entry point (`src/contract/transfer.rs`):
unconditionally `Unauthorized`, the parameter and state are ignored. -/
def transfer_call (_s : State) :
    Except ContractError (State × List ContractEvent) :=
  .error .unauthorized

/-- The `updateOperator` entry point (`src/contract/update_operator.rs`):
unconditionally `Unauthorized`. -/
def update_operator_call (_s : State) :
    Except ContractError (State × List ContractEvent) :=
  .error .unauthorized

/-- One `operatorOf` query (`OperatorOfQuery`). -/
structure OperatorOfQuery where
  owner : Address
  address : Address
  deriving Repr, DecidableEq

/-- The `operatorOf` entry point (`src/contract/operator_of.rs`):
answers `false` for every queried pair. -/
def operator_of_call (queries : List OperatorOfQuery) :
    Except ContractError (List Bool) :=
  .ok (queries.map (fun _ => false))

/-- Modelled from the spec: the host's transactional call semantics
(§5, §7 — "a failed call has zero observable effect on persisted
state"). A receive function that returns an error has its state changes
discarded by the Concordium runtime; this rollback is performed by the
host, not by code under `src/`. -/
def persistedAfter (pre : State)
    (r : Except ContractError (State × List ContractEvent)) : State :=
  match r with
  | .ok (s, _) => s
  | .error _ => pre

/-- The burn events one mint entry produces, expressed against the
pre-call state: a single burn carrying the replaced record's effective
amount when that record was still active, nothing otherwise. -/
def mintBurnEvents (pre : State) (now : Nat) (owner : Nat)
    (token_id : Nat) : List ContractEvent :=
  match balanceRecord pre token_id owner with
  | some b =>
      if 0 < b.get_balance now then
        [.burnEvent token_id (.account owner) (b.get_balance now)]
      else []
  | none => []

/-- The event trace a successful mint batch produces, expressed against
the pre-call state: per entry, the burn events for the replaced record
followed by the mint event for the new amount. -/
def mintExpectedEvents (pre : State) (now : Nat) (owner : Nat) :
    List (Nat × MintParam) → List ContractEvent
  | [] => []
  | (token_id, p) :: rest =>
      mintBurnEvents pre now owner token_id ++
        .mintEvent token_id (.account owner) p.amount ::
          mintExpectedEvents pre now owner rest

/-- The token id an event is about. -/
def eventTokenId : ContractEvent → Nat
  | .mintEvent t _ _ => t
  | .burnEvent t _ _ => t
  | .tokenMetadataEvent t _ => t

/-- Whether an event is a burn event for the given token. -/
def isBurnOn (token_id : Nat) : ContractEvent → Bool
  | .burnEvent t _ _ => t == token_id
  | _ => false

/-- Whether an event is a mint event for the given token. -/
def isMintOn (token_id : Nat) : ContractEvent → Bool
  | .mintEvent t _ _ => t == token_id
  | _ => false

/-! ## Association-list map lemmas -/

theorem lookup_cons {β : Type} (a k : Nat) (v : β) (m : List (Nat × β)) :
    List.lookup a ((k, v) :: m) = if a = k then some v else List.lookup a m := by
  by_cases h : a = k
  · simp [List.lookup, h]
  · have hb : (a == k) = false := beq_eq_false_iff_ne.mpr h
    simp [List.lookup, hb, h]

theorem lookup_mapInsert_self {β : Type} (k : Nat) (v : β)
    (m : List (Nat × β)) : List.lookup k (mapInsert k v m) = some v := by
  induction m with
  | nil => simp [mapInsert, lookup_cons]
  | cons p rest ih =>
      obtain ⟨k', v'⟩ := p
      by_cases h : k = k'
      · simp [mapInsert, h, lookup_cons]
      · simp [mapInsert, h, lookup_cons, ih]

theorem lookup_mapInsert_ne {β : Type} {k k' : Nat} (v : β)
    (m : List (Nat × β)) (h : k' ≠ k) :
    List.lookup k' (mapInsert k v m) = List.lookup k' m := by
  induction m with
  | nil => simp [mapInsert, lookup_cons, h]
  | cons p rest ih =>
      obtain ⟨a, b⟩ := p
      by_cases hk : k = a
      · subst hk
        simp [mapInsert, lookup_cons, h]
      · simp [mapInsert, hk, lookup_cons, ih]

theorem lookup_mapRemove_self {β : Type} (k : Nat) (m : List (Nat × β)) :
    List.lookup k (mapRemove k m) = none := by
  induction m with
  | nil => simp [mapRemove]
  | cons p rest ih =>
      obtain ⟨a, b⟩ := p
      by_cases h : a = k
      · simpa [mapRemove, List.filter_cons, h] using ih
      · have hb : (a == k) = false := beq_eq_false_iff_ne.mpr h
        simp only [mapRemove, List.filter_cons, hb] at ih ⊢
        simp [lookup_cons, Ne.symm h, ih]

theorem lookup_mapRemove_ne {β : Type} {k k' : Nat} (m : List (Nat × β))
    (h : k' ≠ k) :
    List.lookup k' (mapRemove k m) = List.lookup k' m := by
  induction m with
  | nil => simp [mapRemove]
  | cons p rest ih =>
      obtain ⟨a, b⟩ := p
      by_cases hp : a = k
      · subst hp
        simp only [mapRemove, List.filter_cons, beq_self_eq_true,
          Bool.not_true] at ih ⊢
        simp [lookup_cons, h, ih]
      · have hb : (a == k) = false := beq_eq_false_iff_ne.mpr hp
        simp only [mapRemove, List.filter_cons, hb, Bool.not_false] at ih ⊢
        by_cases hk : k' = a
        · simp [lookup_cons, hk]
        · simp [lookup_cons, hk, ih]

/-! ## `State::mint` structure lemmas -/

theorem State.mint_elim {s : State} {token_id account amount expiry : Nat}
    {r : State × Option TokenBalanceState}
    (h : State.mint s token_id account amount expiry = .ok r) :
    ∃ t, List.lookup token_id s.tokens = some t ∧
      r = (⟨mapInsert token_id
              { t with balances :=
                  mapInsert account ⟨amount, expiry⟩ t.balances }
              s.tokens⟩,
            List.lookup account t.balances) := by
  unfold State.mint at h
  cases hl : List.lookup token_id s.tokens with
  | none => rw [hl] at h; exact absurd h (by simp)
  | some t =>
      rw [hl] at h
      exact ⟨t, rfl, by injection h with h; exact h.symm⟩

theorem State.mint_record_self {s s' : State}
    {token_id account amount expiry : Nat} {old : Option TokenBalanceState}
    (h : State.mint s token_id account amount expiry = .ok (s', old)) :
    balanceRecord s' token_id account = some ⟨amount, expiry⟩ := by
  obtain ⟨t, _, hr⟩ := State.mint_elim h
  injection hr with hs hold
  subst hs
  simp [balanceRecord, lookup_mapInsert_self]

theorem State.mint_old_record {s s' : State}
    {token_id account amount expiry : Nat} {old : Option TokenBalanceState}
    (h : State.mint s token_id account amount expiry = .ok (s', old)) :
    old = balanceRecord s token_id account := by
  obtain ⟨t, hl, hr⟩ := State.mint_elim h
  injection hr with hs hold
  simp [balanceRecord, hl, hold]

theorem State.mint_lookup_other {s s' : State}
    {token_id account amount expiry : Nat} {old : Option TokenBalanceState}
    (h : State.mint s token_id account amount expiry = .ok (s', old))
    {tid : Nat} (hne : tid ≠ token_id) :
    List.lookup tid s'.tokens = List.lookup tid s.tokens := by
  obtain ⟨t, _, hr⟩ := State.mint_elim h
  injection hr with hs hold
  subst hs
  simp [lookup_mapInsert_ne _ _ hne]

theorem State.mint_metadata {s s' : State}
    {token_id account amount expiry : Nat} {old : Option TokenBalanceState}
    (h : State.mint s token_id account amount expiry = .ok (s', old))
    (tid : Nat) :
    s'.get_token_metadata tid = s.get_token_metadata tid := by
  obtain ⟨t, hl, hr⟩ := State.mint_elim h
  injection hr with hs hold
  subst hs
  by_cases he : tid = token_id
  · subst he
    simp [State.get_token_metadata, lookup_mapInsert_self, hl]
  · simp [State.get_token_metadata, lookup_mapInsert_ne _ _ he]

theorem State.mint_error_of_no_token {s : State}
    {token_id account amount expiry : Nat}
    (h : s.has_token token_id = false) :
    State.mint s token_id account amount expiry = .error .invalidTokenId := by
  unfold State.mint
  cases hl : List.lookup token_id s.tokens with
  | none => rfl
  | some t => simp [State.has_token, hl] at h

/-! ## `mintLoop` lemmas -/

theorem mintLoop_nil (now owner : Nat) (s : State) :
    mintLoop now owner s [] = .ok (s, []) := rfl

theorem mintLoop_lookup_not_mem {now owner : Nat}
    {l : List (Nat × MintParam)} {s s'' : State} {evs : List ContractEvent}
    (h : mintLoop now owner s l = .ok (s'', evs))
    {tid : Nat} (hmem : tid ∉ l.map Prod.fst) :
    List.lookup tid s''.tokens = List.lookup tid s.tokens := by
  induction l generalizing s s'' evs with
  | nil =>
      simp only [mintLoop_nil, Except.ok.injEq, Prod.mk.injEq] at h
      rw [← h.1]
  | cons hd rest ih =>
      obtain ⟨tid0, p⟩ := hd
      simp only [List.map_cons, List.mem_cons, not_or] at hmem
      obtain ⟨hne, hrest⟩ := hmem
      simp only [mintLoop] at h
      split at h
      · split at h
        · exact absurd h (by simp)
        · rename_i s' existing hm
          split at h
          · exact absurd h (by simp)
          · rename_i s2 evs2 hrec
            simp only [Except.ok.injEq, Prod.mk.injEq] at h
            rw [← h.1]
            exact (ih hrec hrest).trans (State.mint_lookup_other hm hne)
      · exact absurd h (by simp)

theorem mintLoop_record {now owner : Nat}
    {l : List (Nat × MintParam)} {s s'' : State} {evs : List ContractEvent}
    (h : mintLoop now owner s l = .ok (s'', evs))
    (hnd : (l.map Prod.fst).Nodup)
    {tid : Nat} {p : MintParam} (hmem : (tid, p) ∈ l) :
    balanceRecord s'' tid owner = some ⟨p.amount, p.expiry⟩ := by
  induction l generalizing s s'' evs with
  | nil => cases hmem
  | cons hd rest ih =>
      obtain ⟨tid0, p0⟩ := hd
      simp only [mintLoop] at h
      split at h
      · split at h
        · exact absurd h (by simp)
        · rename_i s' existing hm
          split at h
          · exact absurd h (by simp)
          · rename_i s2 evs2 hrec
            simp only [Except.ok.injEq, Prod.mk.injEq] at h
            obtain ⟨hs2, _⟩ := h
            rw [← hs2]
            simp only [List.map_cons, List.nodup_cons] at hnd
            obtain ⟨hnotin, hndrest⟩ := hnd
            rcases List.mem_cons.mp hmem with heq | hmem'
            · injection heq with h1 h2
              subst h1; subst h2
              have hpre : List.lookup tid s2.tokens =
                  List.lookup tid s'.tokens :=
                mintLoop_lookup_not_mem hrec hnotin
              have hself := State.mint_record_self hm
              unfold balanceRecord at hself ⊢
              rw [hpre]
              exact hself
            · exact ih hrec hndrest hmem'
      · exact absurd h (by simp)

theorem mintLoop_events {now owner : Nat}
    {l : List (Nat × MintParam)} {s pre s'' : State}
    {evs : List ContractEvent}
    (h : mintLoop now owner s l = .ok (s'', evs))
    (hnd : (l.map Prod.fst).Nodup)
    (hagree : ∀ tid ∈ l.map Prod.fst,
      List.lookup tid s.tokens = List.lookup tid pre.tokens) :
    evs = mintExpectedEvents pre now owner l := by
  induction l generalizing s s'' evs with
  | nil =>
      simp only [mintLoop_nil, Except.ok.injEq, Prod.mk.injEq] at h
      rw [← h.2]
      rfl
  | cons hd rest ih =>
      obtain ⟨tid0, p0⟩ := hd
      simp only [List.map_cons, List.nodup_cons] at hnd
      obtain ⟨hnotin, hndrest⟩ := hnd
      simp only [mintLoop] at h
      split at h
      · split at h
        · exact absurd h (by simp)
        · rename_i s' existing hm
          split at h
          · exact absurd h (by simp)
          · rename_i s2 evs2 hrec
            simp only [Except.ok.injEq, Prod.mk.injEq] at h
            obtain ⟨_, hevs⟩ := h
            have hbr : balanceRecord pre tid0 owner = existing := by
              rw [State.mint_old_record hm]
              unfold balanceRecord
              rw [hagree tid0 (by simp)]
            have hagree' : ∀ tid ∈ rest.map Prod.fst,
                List.lookup tid s'.tokens = List.lookup tid pre.tokens := by
              intro tid htid
              have hne : tid ≠ tid0 := fun he => hnotin (he ▸ htid)
              rw [State.mint_lookup_other hm hne]
              exact hagree tid (by simp [htid])
            have hrest := ih hrec hndrest hagree'
            rw [← hevs, hrest]
            show _ = mintExpectedEvents pre now owner ((tid0, p0) :: rest)
            conv_rhs => rw [mintExpectedEvents]
            unfold mintBurnEvents
            rw [hbr]
      · exact absurd h (by simp)

/-- The keys of a mint batch are pairwise distinct: the `BTreeMap`
iteration is strictly ascending. -/
theorem MintParams.keysNodup (params : MintParams) :
    (params.tokens.map Prod.fst).Nodup :=
  (List.chain'_iff_pairwise.mp params.tokensSorted).imp
    (fun h => Nat.ne_of_lt h)

/-! ## `add_token` lemmas -/

theorem State.has_token_add_token {s : State} {x y : Nat}
    {m : MetadataUrl} (h : s.has_token x = true) :
    (s.add_token y m).has_token x = true := by
  unfold State.add_token
  cases hl : List.lookup y s.tokens with
  | some t => exact h
  | none =>
      unfold State.has_token at h ⊢
      simp only [lookup_cons]
      by_cases hxy : x = y
      · simp [hxy]
      · simpa [hxy] using h

theorem addLoop_error_of_exists {s : State} {l : List AddTokenParams}
    (h : ∃ t ∈ l, s.has_token t.token_id = true) :
    addLoop s l = .error .invalidTokenId := by
  induction l generalizing s with
  | nil => obtain ⟨t, ht, _⟩ := h; cases ht
  | cons hd rest ih =>
      obtain ⟨t, ht, hex⟩ := h
      by_cases hhd : s.has_token hd.token_id = true
      · simp [addLoop, hhd]
      · rcases List.mem_cons.mp ht with heq | hmem
        · subst heq; exact absurd hex hhd
        · have hrec := ih (s := s.add_token hd.token_id hd.metadata_url)
            ⟨t, hmem, State.has_token_add_token hex⟩
          simp [addLoop, hhd, hrec]

/-! ## Event counting lemmas -/

theorem mintBurnEvents_countP_burn (pre : State) (now owner tid tq : Nat) :
    (mintBurnEvents pre now owner tid).countP (isBurnOn tq) ≤ 1 := by
  unfold mintBurnEvents
  cases balanceRecord pre tid owner with
  | none => simp
  | some b =>
      by_cases hb : 0 < b.get_balance now
      · simp only [hb, if_true, List.countP_cons, List.countP_nil]
        cases isBurnOn tq (ContractEvent.burnEvent tid (.account owner)
          (b.get_balance now)) <;> simp
      · simp [hb]

theorem mintBurnEvents_countP_burn_ne (pre : State)
    (now owner tid tq : Nat) (h : tq ≠ tid) :
    (mintBurnEvents pre now owner tid).countP (isBurnOn tq) = 0 := by
  unfold mintBurnEvents
  cases balanceRecord pre tid owner with
  | none => simp
  | some b =>
      by_cases hb : 0 < b.get_balance now
      · have : isBurnOn tq (ContractEvent.burnEvent tid (.account owner)
            (b.get_balance now)) = false := by
          simp [isBurnOn, beq_eq_false_iff_ne, Ne.symm h]
        simp [hb, List.countP_cons, this]
      · simp [hb]

theorem mintBurnEvents_countP_mint (pre : State) (now owner tid tq : Nat) :
    (mintBurnEvents pre now owner tid).countP (isMintOn tq) = 0 := by
  unfold mintBurnEvents
  cases balanceRecord pre tid owner with
  | none => simp
  | some b =>
      by_cases hb : 0 < b.get_balance now
      · simp [hb, List.countP_cons, isMintOn]
      · simp [hb]

theorem mintExpectedEvents_countP_zero {pre : State} {now owner tq : Nat}
    {l : List (Nat × MintParam)} (h : tq ∉ l.map Prod.fst) :
    (mintExpectedEvents pre now owner l).countP (isBurnOn tq) = 0 ∧
    (mintExpectedEvents pre now owner l).countP (isMintOn tq) = 0 := by
  induction l with
  | nil => simp [mintExpectedEvents]
  | cons hd rest ih =>
      obtain ⟨tid0, p0⟩ := hd
      simp only [List.map_cons, List.mem_cons, not_or] at h
      obtain ⟨hne, hrest⟩ := h
      obtain ⟨ihb, ihm⟩ := ih hrest
      have hmb : isBurnOn tq (ContractEvent.mintEvent tid0 (.account owner)
          p0.amount) = false := by simp [isBurnOn]
      have hmm : isMintOn tq (ContractEvent.mintEvent tid0 (.account owner)
          p0.amount) = false := by
        simp [isMintOn, beq_eq_false_iff_ne, Ne.symm hne]
      constructor
      · simp [mintExpectedEvents, List.countP_append, List.countP_cons,
          hmb, mintBurnEvents_countP_burn_ne pre now owner tid0 tq hne, ihb]
      · simp [mintExpectedEvents, List.countP_append, List.countP_cons,
          hmm, mintBurnEvents_countP_mint, ihm]

theorem mintExpectedEvents_countP_le {pre : State} {now owner tq : Nat}
    {l : List (Nat × MintParam)} (hnd : (l.map Prod.fst).Nodup) :
    (mintExpectedEvents pre now owner l).countP (isBurnOn tq) ≤ 1 ∧
    (mintExpectedEvents pre now owner l).countP (isMintOn tq) ≤ 1 := by
  induction l with
  | nil => simp [mintExpectedEvents]
  | cons hd rest ih =>
      obtain ⟨tid0, p0⟩ := hd
      simp only [List.map_cons, List.nodup_cons] at hnd
      obtain ⟨hnotin, hndrest⟩ := hnd
      have hmb : isBurnOn tq (ContractEvent.mintEvent tid0 (.account owner)
          p0.amount) = false := by simp [isBurnOn]
      by_cases heq : tq = tid0
      · subst heq
        obtain ⟨hzb, hzm⟩ :=
          @mintExpectedEvents_countP_zero pre now owner tq rest hnotin
        constructor
        · have hb1 := mintBurnEvents_countP_burn pre now owner tq tq
          simp [mintExpectedEvents, List.countP_append, List.countP_cons,
            hmb, hzb]
          omega
        · have hbm := mintBurnEvents_countP_mint pre now owner tq tq
          have hmm : isMintOn tq (ContractEvent.mintEvent tq (.account owner)
              p0.amount) = true := by simp [isMintOn]
          simp [mintExpectedEvents, List.countP_append, List.countP_cons,
            hmm, hzm, hbm]
      · obtain ⟨ihb, ihm⟩ := ih hndrest
        have hmm : isMintOn tq (ContractEvent.mintEvent tid0 (.account owner)
            p0.amount) = false := by
          simp [isMintOn, beq_eq_false_iff_ne, Ne.symm heq]
        constructor
        · simp [mintExpectedEvents, List.countP_append, List.countP_cons,
            hmb, mintBurnEvents_countP_burn_ne pre now owner tid0 tq heq, ihb]
        · simp [mintExpectedEvents, List.countP_append, List.countP_cons,
            hmm, mintBurnEvents_countP_mint, ihm]

/-! ## Claim theorems -/

/-- C1: for every successful mint call by the administrator and every
entry `(token_id, amount, expiry)` of the batch, the stored record for
`(token_id, owner)` after the call is exactly `(amount, expiry)` from
the request, regardless of any prior record for that pair: a full
overwrite, never an accumulation. -/
theorem mint_installs_exact_record (s post : State) (now : Nat)
    (params : MintParams) (evs : List ContractEvent)
    (token_id : Nat) (p : MintParam)
    (hok : mint_call true now s params = .ok (post, evs))
    (hmem : (token_id, p) ∈ params.tokens) :
    balanceRecord post token_id params.owner = some ⟨p.amount, p.expiry⟩ :=
  mintLoop_record hok params.keysNodup hmem

theorem mint_installs_exact_record_witness :
    balanceRecord ⟨[(1, ⟨[(7, ⟨5, 100⟩)], ⟨"u", none⟩⟩)]⟩ 1 7 =
      some ⟨5, 100⟩ :=
  mint_installs_exact_record
    ⟨[(1, ⟨[(7, ⟨3, 50⟩)], ⟨"u", none⟩⟩)]⟩
    ⟨[(1, ⟨[(7, ⟨5, 100⟩)], ⟨"u", none⟩⟩)]⟩
    10 ⟨7, [(1, ⟨5, 100⟩)], by simp⟩
    [.burnEvent 1 (.account 7) 3, .mintEvent 1 (.account 7) 5]
    1 ⟨5, 100⟩ rfl (by simp)

/-- C2: the event trace of a successful mint call is, per entry in
order, one burn event carrying the prior record's effective amount when
that prior record was still active at the call instant (no burn when it
was absent or expired), followed by the mint event with the new amount
(emitted even when the new amount is zero). -/
theorem mint_event_trace (s post : State) (now : Nat)
    (params : MintParams) (evs : List ContractEvent)
    (hok : mint_call true now s params = .ok (post, evs)) :
    evs = mintExpectedEvents s now params.owner params.tokens :=
  mintLoop_events hok params.keysNodup (fun _ _ => rfl)

theorem mint_event_trace_witness :
    [ContractEvent.burnEvent 1 (.account 7) 3,
     ContractEvent.mintEvent 1 (.account 7) 5] =
      mintExpectedEvents ⟨[(1, ⟨[(7, ⟨3, 50⟩)], ⟨"u", none⟩⟩)]⟩ 10 7
        [(1, ⟨5, 100⟩)] :=
  mint_event_trace
    ⟨[(1, ⟨[(7, ⟨3, 50⟩)], ⟨"u", none⟩⟩)]⟩
    ⟨[(1, ⟨[(7, ⟨5, 100⟩)], ⟨"u", none⟩⟩)]⟩
    10 ⟨7, [(1, ⟨5, 100⟩)], by simp⟩
    [.burnEvent 1 (.account 7) 3, .mintEvent 1 (.account 7) 5] rfl

/-- C3: a remove call processes its batch in order; a missing token is a
hard `InvalidTokenId` error, a token with any active balance fails with
`TokenHasValidBalances`, and otherwise the token's entry together with
all its balance records is deleted and an empty-url metadata event is
emitted for it. -/
theorem remove_semantics (s : State) (now token_id account : Nat)
    (rest : List Nat) :
    (s.has_token token_id = false →
      remove_call true now s (token_id :: rest) = .error .invalidTokenId) ∧
    (s.has_token token_id = true → s.has_balances token_id now = true →
      remove_call true now s (token_id :: rest) =
        .error (.custom .tokenHasValidBalances)) ∧
    (s.has_token token_id = true → s.has_balances token_id now = false →
      List.lookup token_id (s.remove_token token_id).tokens = none ∧
      balanceRecord (s.remove_token token_id) token_id account = none ∧
      remove_call true now s (token_id :: rest) =
        match removeLoop now (s.remove_token token_id) rest with
        | .error e => .error e
        | .ok (s', evs) =>
            .ok (s', .tokenMetadataEvent token_id ⟨"", none⟩ :: evs)) := by
  refine ⟨?_, ?_, ?_⟩
  · intro h
    show removeLoop now s (token_id :: rest) = _
    simp [removeLoop, h]
  · intro h hb
    show removeLoop now s (token_id :: rest) = _
    simp [removeLoop, h, hb]
  · intro h hb
    refine ⟨lookup_mapRemove_self token_id s.tokens, ?_, ?_⟩
    · simp [balanceRecord, State.remove_token,
        lookup_mapRemove_self token_id s.tokens]
    · show removeLoop now s (token_id :: rest) = _
      simp [removeLoop, h, hb]

theorem remove_semantics_witness :
    remove_call true 10 ⟨[]⟩ [1] = .error .invalidTokenId ∧
    remove_call true 10 ⟨[(1, ⟨[(7, ⟨3, 50⟩)], ⟨"u", none⟩⟩)]⟩ [1] =
      .error (.custom .tokenHasValidBalances) ∧
    (List.lookup 1
        ((⟨[(1, ⟨[(7, ⟨3, 50⟩)], ⟨"u", none⟩⟩)]⟩ : State).remove_token 1).tokens
        = none ∧
      balanceRecord
        ((⟨[(1, ⟨[(7, ⟨3, 50⟩)], ⟨"u", none⟩⟩)]⟩ : State).remove_token 1) 1 7
        = none ∧
      remove_call true 60 ⟨[(1, ⟨[(7, ⟨3, 50⟩)], ⟨"u", none⟩⟩)]⟩ [1] =
        .ok (⟨[]⟩, [.tokenMetadataEvent 1 ⟨"", none⟩])) :=
  ⟨(remove_semantics ⟨[]⟩ 10 1 7 []).1 rfl,
   (remove_semantics ⟨[(1, ⟨[(7, ⟨3, 50⟩)], ⟨"u", none⟩⟩)]⟩ 10 1 7 []).2.1
     rfl rfl,
   (remove_semantics ⟨[(1, ⟨[(7, ⟨3, 50⟩)], ⟨"u", none⟩⟩)]⟩ 60 1 7 []).2.2
     rfl rfl⟩

/-- C4: within a mint batch entry the expiry check precedes and is
independent of the existence check: an entry whose expiry is not
strictly after the call instant fails the call with `TokenExpired`
whether or not the token exists, and an entry with a valid expiry on an
unregistered token fails with `InvalidTokenId`. -/
theorem mint_error_precedence (s : State) (now : Nat)
    (params : MintParams) (token_id : Nat) (p : MintParam)
    (rest : List (Nat × MintParam))
    (hhead : params.tokens = (token_id, p) :: rest) :
    (¬ now < p.expiry →
      mint_call true now s params = .error (.custom .tokenExpired)) ∧
    (now < p.expiry → s.has_token token_id = false →
      mint_call true now s params = .error .invalidTokenId) := by
  constructor
  · intro hexp
    show mintLoop now params.owner s params.tokens = _
    rw [hhead]
    simp only [mintLoop]
    rw [if_neg hexp]
  · intro hexp hnk
    show mintLoop now params.owner s params.tokens = _
    rw [hhead]
    simp only [mintLoop]
    rw [if_pos hexp, State.mint_error_of_no_token hnk]

theorem mint_error_precedence_witness :
    mint_call true 10 (⟨[]⟩ : State) ⟨7, [(1, ⟨5, 10⟩)], by simp⟩ =
      .error (.custom .tokenExpired) ∧
    mint_call true 10 (⟨[]⟩ : State) ⟨7, [(1, ⟨5, 100⟩)], by simp⟩ =
      .error .invalidTokenId :=
  ⟨(mint_error_precedence ⟨[]⟩ 10 ⟨7, [(1, ⟨5, 10⟩)], by simp⟩ 1 ⟨5, 10⟩
      [] rfl).1 (by decide),
   (mint_error_precedence ⟨[]⟩ 10 ⟨7, [(1, ⟨5, 100⟩)], by simp⟩ 1
      ⟨5, 100⟩ [] rfl).2 (by decide) rfl⟩

/-- C5: `balanceOf` fails with `InvalidTokenId` exactly when the token
is unregistered and otherwise returns the stored amount time-masked by
the stored expiry (zero when expired or when no record exists);
`expiryOf` fails the same way and otherwise reports the stored expiry
verbatim (`none` when no record exists), with no time masking. -/
theorem query_resolution (s : State) (token_id account now : Nat) :
    (s.has_token token_id = false →
      s.get_account_balance token_id account now = .error .invalidTokenId ∧
      s.get_account_balance_expiry token_id account =
        .error .invalidTokenId) ∧
    (s.has_token token_id = true →
      s.get_account_balance token_id account now =
        .ok (match balanceRecord s token_id account with
             | some b => if now < b.expiry then b.amount else 0
             | none => 0) ∧
      s.get_account_balance_expiry token_id account =
        .ok ((balanceRecord s token_id account).map (fun b => b.expiry))) := by
  cases hl : List.lookup token_id s.tokens with
  | none =>
      refine ⟨fun _ => ?_, fun h => ?_⟩
      · constructor <;>
          simp [State.get_account_balance,
            State.get_account_balance_expiry, hl]
      · simp [State.has_token, hl] at h
  | some t =>
      refine ⟨fun h => ?_, fun _ => ?_⟩
      · simp [State.has_token, hl] at h
      · constructor
        · simp only [State.get_account_balance, hl, balanceRecord,
            Option.some_bind, TokenState.get_account_balance]
          cases List.lookup account t.balances with
          | none => rfl
          | some b => simp [TokenBalanceState.get_balance]
        · simp only [State.get_account_balance_expiry, hl, balanceRecord,
            Option.some_bind, TokenState.get_account_balance_expiry]

theorem query_resolution_witness :
    (State.get_account_balance ⟨[]⟩ 1 7 10 = .error .invalidTokenId ∧
      State.get_account_balance_expiry ⟨[]⟩ 1 7 =
        .error .invalidTokenId) ∧
    (State.get_account_balance ⟨[(1, ⟨[(7, ⟨3, 50⟩)], ⟨"u", none⟩⟩)]⟩
        1 7 60 = .ok 0 ∧
      State.get_account_balance_expiry
        ⟨[(1, ⟨[(7, ⟨3, 50⟩)], ⟨"u", none⟩⟩)]⟩ 1 7 = .ok (some 50)) :=
  ⟨(query_resolution ⟨[]⟩ 1 7 10).1 rfl,
   (query_resolution ⟨[(1, ⟨[(7, ⟨3, 50⟩)], ⟨"u", none⟩⟩)]⟩ 1 7 60).2 rfl⟩

/-- C6: a register, mint or remove call that returns an error leaves the
persisted ledger state exactly as before the call (the host discards
the failed call's mutations); in particular, register on an
already-existing token id fails with `InvalidTokenId`. -/
theorem error_leaves_state_unchanged (s : State) (now : Nat) (auth : Bool)
    (addP : List AddTokenParams) (mp : MintParams) (rp : List Nat)
    (e1 e2 e3 : ContractError) (t : AddTokenParams)
    (h1 : add_call auth s addP = .error e1)
    (h2 : mint_call auth now s mp = .error e2)
    (h3 : remove_call auth now s rp = .error e3)
    (htm : t ∈ addP) (hex : s.has_token t.token_id = true) :
    persistedAfter s (add_call auth s addP) = s ∧
    persistedAfter s (mint_call auth now s mp) = s ∧
    persistedAfter s (remove_call auth now s rp) = s ∧
    add_call true s addP = .error .invalidTokenId := by
  refine ⟨?_, ?_, ?_, ?_⟩
  · rw [h1]; rfl
  · rw [h2]; rfl
  · rw [h3]; rfl
  · show addLoop s addP = _
    exact addLoop_error_of_exists ⟨t, htm, hex⟩

theorem error_leaves_state_unchanged_witness :
    persistedAfter ⟨[(1, ⟨[], ⟨"u", none⟩⟩)]⟩
        (add_call true ⟨[(1, ⟨[], ⟨"u", none⟩⟩)]⟩ [⟨1, ⟨"v", none⟩⟩]) =
      ⟨[(1, ⟨[], ⟨"u", none⟩⟩)]⟩ ∧
    persistedAfter ⟨[(1, ⟨[], ⟨"u", none⟩⟩)]⟩
        (mint_call true 10 ⟨[(1, ⟨[], ⟨"u", none⟩⟩)]⟩
          ⟨7, [(1, ⟨5, 10⟩)], by simp⟩) =
      ⟨[(1, ⟨[], ⟨"u", none⟩⟩)]⟩ ∧
    persistedAfter ⟨[(1, ⟨[], ⟨"u", none⟩⟩)]⟩
        (remove_call true 10 ⟨[(1, ⟨[], ⟨"u", none⟩⟩)]⟩ [2]) =
      ⟨[(1, ⟨[], ⟨"u", none⟩⟩)]⟩ ∧
    add_call true ⟨[(1, ⟨[], ⟨"u", none⟩⟩)]⟩ [⟨1, ⟨"v", none⟩⟩] =
      .error .invalidTokenId :=
  error_leaves_state_unchanged ⟨[(1, ⟨[], ⟨"u", none⟩⟩)]⟩ 10 true
    [⟨1, ⟨"v", none⟩⟩] ⟨7, [(1, ⟨5, 10⟩)], by simp⟩ [2]
    .invalidTokenId (.custom .tokenExpired) .invalidTokenId
    ⟨1, ⟨"v", none⟩⟩ rfl rfl rfl (by simp) rfl

/-- C7: a `balanceOf` or `expiryOf` sub-query against a contract-style
holder address fails with `AccountsOnly` independently of token
existence; sub-queries are evaluated in list order, a succeeding head is
prepended to the remaining results, and the first failing sub-query
aborts the whole call with that single error, leaving no partial
results. -/
theorem query_holder_kind_and_order (s : State) (now : Nat)
    (q qf qo qf2 qo2 : BalanceOfQuery) (qs : List BalanceOfQuery)
    (ci cs : Nat) (e e2 : ContractError) (v : Nat) (w : Option Nat)
    (hq : q.address = .contract ci cs)
    (hf : evalBalanceQuery s now qf = .error e)
    (ho : evalBalanceQuery s now qo = .ok v)
    (hf2 : evalExpiryQuery s qf2 = .error e2)
    (ho2 : evalExpiryQuery s qo2 = .ok w) :
    evalBalanceQuery s now q = .error (.custom .accountsOnly) ∧
    evalExpiryQuery s q = .error (.custom .accountsOnly) ∧
    balance_of_call s now (qf :: qs) = .error e ∧
    balance_of_call s now (qo :: qs) =
      (balance_of_call s now qs).map (fun vs => v :: vs) ∧
    expiry_of_call s (qf2 :: qs) = .error e2 ∧
    expiry_of_call s (qo2 :: qs) =
      (expiry_of_call s qs).map (fun vs => w :: vs) := by
  refine ⟨?_, ?_, ?_, ?_, ?_, ?_⟩
  · simp [evalBalanceQuery, hq]
  · simp [evalExpiryQuery, hq]
  · show balanceOfLoop s now (qf :: qs) = _
    simp [balanceOfLoop, hf]
  · show balanceOfLoop s now (qo :: qs) =
      Except.map (fun vs => v :: vs) (balanceOfLoop s now qs)
    simp only [balanceOfLoop, ho]
    cases balanceOfLoop s now qs <;> rfl
  · show expiryOfLoop s (qf2 :: qs) = _
    simp [expiryOfLoop, hf2]
  · show expiryOfLoop s (qo2 :: qs) =
      Except.map (fun vs => w :: vs) (expiryOfLoop s qs)
    simp only [expiryOfLoop, ho2]
    cases expiryOfLoop s qs <;> rfl

theorem query_holder_kind_and_order_witness :
    evalBalanceQuery ⟨[(1, ⟨[(7, ⟨3, 50⟩)], ⟨"u", none⟩⟩)]⟩ 10
        ⟨1, .contract 0 0⟩ = .error (.custom .accountsOnly) ∧
    evalExpiryQuery ⟨[(1, ⟨[(7, ⟨3, 50⟩)], ⟨"u", none⟩⟩)]⟩
        ⟨1, .contract 0 0⟩ = .error (.custom .accountsOnly) ∧
    balance_of_call ⟨[(1, ⟨[(7, ⟨3, 50⟩)], ⟨"u", none⟩⟩)]⟩ 10
        [⟨2, .account 7⟩] = .error .invalidTokenId ∧
    balance_of_call ⟨[(1, ⟨[(7, ⟨3, 50⟩)], ⟨"u", none⟩⟩)]⟩ 10
        [⟨1, .account 7⟩] =
      (balance_of_call ⟨[(1, ⟨[(7, ⟨3, 50⟩)], ⟨"u", none⟩⟩)]⟩ 10 []).map
        (fun vs => 3 :: vs) ∧
    expiry_of_call ⟨[(1, ⟨[(7, ⟨3, 50⟩)], ⟨"u", none⟩⟩)]⟩
        [⟨2, .account 7⟩] = .error .invalidTokenId ∧
    expiry_of_call ⟨[(1, ⟨[(7, ⟨3, 50⟩)], ⟨"u", none⟩⟩)]⟩
        [⟨1, .account 7⟩] =
      (expiry_of_call ⟨[(1, ⟨[(7, ⟨3, 50⟩)], ⟨"u", none⟩⟩)]⟩ []).map
        (fun vs => some 50 :: vs) :=
  query_holder_kind_and_order ⟨[(1, ⟨[(7, ⟨3, 50⟩)], ⟨"u", none⟩⟩)]⟩ 10
    ⟨1, .contract 0 0⟩ ⟨2, .account 7⟩ ⟨1, .account 7⟩ ⟨2, .account 7⟩
    ⟨1, .account 7⟩ [] 0 0 .invalidTokenId .invalidTokenId 3 (some 50)
    rfl rfl rfl rfl rfl

/-- C8: a registered token's metadata is never altered: `add_token`
leaves every existing token's metadata untouched (registration never
overwrites), a freshly registered token carries exactly the supplied
metadata, `State::mint` changes only balance records, and `remove_token`
of a different token leaves the metadata intact. -/
theorem metadata_never_altered (s s' : State)
    (token_id tid2 token_new mOther rOther : Nat)
    (m m' : MetadataUrl) (account amount expiry : Nat)
    (old : Option TokenBalanceState)
    (hreg : s.has_token token_id = true)
    (hnew : s.has_token token_new = false)
    (hm : State.mint s mOther account amount expiry = .ok (s', old))
    (hne : token_id ≠ rOther) :
    (s.add_token tid2 m').get_token_metadata token_id =
      s.get_token_metadata token_id ∧
    (s.add_token token_new m).get_token_metadata token_new = .ok m ∧
    s'.get_token_metadata token_id = s.get_token_metadata token_id ∧
    (s.remove_token rOther).get_token_metadata token_id =
      s.get_token_metadata token_id := by
  refine ⟨?_, ?_, State.mint_metadata hm token_id, ?_⟩
  · unfold State.add_token
    cases hl : List.lookup tid2 s.tokens with
    | some t => rfl
    | none =>
        by_cases hxy : token_id = tid2
        · subst hxy
          simp [State.has_token, hl] at hreg
        · simp [State.get_token_metadata, lookup_cons, hxy]
  · unfold State.add_token
    cases hl : List.lookup token_new s.tokens with
    | some t => simp [State.has_token, hl] at hnew
    | none => simp [State.get_token_metadata, lookup_cons]
  · simp [State.get_token_metadata, State.remove_token,
      lookup_mapRemove_ne s.tokens hne]

theorem metadata_never_altered_witness :
    (State.add_token ⟨[(1, ⟨[(7, ⟨3, 50⟩)], ⟨"u", none⟩⟩)]⟩ 1
        ⟨"v", none⟩).get_token_metadata 1 =
      (⟨[(1, ⟨[(7, ⟨3, 50⟩)], ⟨"u", none⟩⟩)]⟩ : State).get_token_metadata
        1 ∧
    (State.add_token ⟨[(1, ⟨[(7, ⟨3, 50⟩)], ⟨"u", none⟩⟩)]⟩ 2
        ⟨"w", none⟩).get_token_metadata 2 = .ok ⟨"w", none⟩ ∧
    (⟨[(1, ⟨[(7, ⟨5, 100⟩)], ⟨"u", none⟩⟩)]⟩ : State).get_token_metadata
        1 =
      (⟨[(1, ⟨[(7, ⟨3, 50⟩)], ⟨"u", none⟩⟩)]⟩ : State).get_token_metadata
        1 ∧
    ((⟨[(1, ⟨[(7, ⟨3, 50⟩)], ⟨"u", none⟩⟩)]⟩ : State).remove_token
        2).get_token_metadata 1 =
      (⟨[(1, ⟨[(7, ⟨3, 50⟩)], ⟨"u", none⟩⟩)]⟩ : State).get_token_metadata
        1 :=
  metadata_never_altered ⟨[(1, ⟨[(7, ⟨3, 50⟩)], ⟨"u", none⟩⟩)]⟩
    ⟨[(1, ⟨[(7, ⟨5, 100⟩)], ⟨"u", none⟩⟩)]⟩ 1 1 2 1 2
    ⟨"w", none⟩ ⟨"v", none⟩ 7 5 100 (some ⟨3, 50⟩)
    rfl rfl rfl (by decide)

/-- C9: `transfer` and `updateOperator` always fail with `Unauthorized`
and leave the persisted state untouched, and `operatorOf` always
succeeds, answering exactly one `false` per queried pair. -/
theorem disabled_endpoints (s : State) (queries : List OperatorOfQuery) :
    transfer_call s = .error .unauthorized ∧
    persistedAfter s (transfer_call s) = s ∧
    update_operator_call s = .error .unauthorized ∧
    persistedAfter s (update_operator_call s) = s ∧
    operator_of_call queries = .ok (queries.map (fun _ => false)) :=
  ⟨rfl, rfl, rfl, rfl, rfl⟩

/-- C10: the mint batch is a map keyed by token id — its keys are
strictly ascending, hence pairwise distinct (duplicate ids are
unrepresentable) — and consequently a successful mint call emits at most
one burn event and at most one mint event per token id. -/
theorem mint_batch_keyed_map (params : MintParams) (s post : State)
    (now token_id : Nat) (evs : List ContractEvent)
    (hok : mint_call true now s params = .ok (post, evs)) :
    List.Chain' (· < ·) (params.tokens.map Prod.fst) ∧
    (params.tokens.map Prod.fst).Nodup ∧
    evs.countP (isBurnOn token_id) ≤ 1 ∧
    evs.countP (isMintOn token_id) ≤ 1 := by
  have hevs : evs = mintExpectedEvents s now params.owner params.tokens :=
    mintLoop_events hok params.keysNodup (fun _ _ => rfl)
  obtain ⟨hb, hm⟩ :=
    @mintExpectedEvents_countP_le s now params.owner token_id params.tokens
      params.keysNodup
  exact ⟨params.tokensSorted, params.keysNodup, hevs ▸ hb, hevs ▸ hm⟩

theorem mint_batch_keyed_map_witness :
    List.Chain' (· < ·) ([(1, (⟨5, 100⟩ : MintParam))].map Prod.fst) ∧
    ([(1, (⟨5, 100⟩ : MintParam))].map Prod.fst).Nodup ∧
    List.countP (isBurnOn 1)
      [ContractEvent.burnEvent 1 (.account 7) 3,
       ContractEvent.mintEvent 1 (.account 7) 5] ≤ 1 ∧
    List.countP (isMintOn 1)
      [ContractEvent.burnEvent 1 (.account 7) 3,
       ContractEvent.mintEvent 1 (.account 7) 5] ≤ 1 :=
  mint_batch_keyed_map ⟨7, [(1, ⟨5, 100⟩)], by simp⟩
    ⟨[(1, ⟨[(7, ⟨3, 50⟩)], ⟨"u", none⟩⟩)]⟩
    ⟨[(1, ⟨[(7, ⟨5, 100⟩)], ⟨"u", none⟩⟩)]⟩ 10 1
    [.burnEvent 1 (.account 7) 3, .mintEvent 1 (.account 7) 5] rfl

end Dsid
